import Mathlib

/-!
Verification development for the `bh_tsne` wrapper (`tsne/bhtsne.py`).

The wrapper encodes a batch of samples into a binary request file, runs an
external engine in a transient directory, decodes the engine's binary result
file, reorders the decoded vectors by their origin indices and yields them.

Shallow embedding conventions:
* A binary file is a `List WireWord`; a `WireWord` is either a 32-bit signed
  integer field (`i32`, carried as `Int`, range-checked on packing exactly as
  `struct.pack 'i'` does) or a 64-bit float field (`f64`).  The wrapper never
  performs arithmetic on the float values — it only moves them around — so a
  float is carried opaquely by its 64-bit pattern, a `Nat`.  Equality of
  patterns is bit-for-bit equality of the floats.
* `struct.unpack` on a truncated or mistyped stream raises; reads are `Option`.
* The generator body of `bh_tsne` is modelled as a function from the inputs and
  an engine behaviour (request file ↦ exit code and result file) to a trace of
  filesystem/process events plus an `Except` outcome.  The `with TmpDir()`
  block is modelled as try/finally: the `rmtree` event is emitted on both the
  normal and the exceptional exit of the body it encloses.
-/

namespace BhTsne

/-- One field of a binary request/result file: a 32-bit integer or a 64-bit
float carried by its bit pattern (no float arithmetic happens anywhere). -/
inductive WireWord where
  | i32 (v : Int)
  | f64 (bits : Nat)
  deriving DecidableEq

/-- `EMPTY_SEED = -1` from the source. -/
def EMPTY_SEED : Int := -1

/-- `DEFAULT_NO_DIMS = 2` from the source. -/
def DEFAULT_NO_DIMS : Int := 2

/-- `-2^31`, lower bound of the `'i'` (int32) pack range. -/
def int32Min : Int := -2147483648

/-- `2^31`, strict upper bound of the `'i'` (int32) pack range. -/
def int32Max : Int := 2147483648

/-- The signed 32-bit range test `int32Min ≤ v < int32Max`, written by cases
on the integer's sign: a non-negative `n` qualifies when `n < 2^31`, a
negative `-(n+1)` when `n + 1 ≤ 2^31`, i.e. `n < 2^31` as well. -/
def inInt32Range : Int → Bool
  | Int.ofNat n => Nat.blt n 2147483648
  | Int.negSucc n => Nat.blt n 2147483648

/-- `struct.pack 'i' v`: an `int32` field; raises `struct.error` when `v` is
out of the signed 32-bit range. -/
def pack_i32 (v : Int) : Option WireWord :=
  if inInt32Range v then some (WireWord.i32 v) else none

/-- The request-file writes of `bh_tsne` (source lines 110–118):
`pack('iiddi', sample_count, sample_dim, theta, perplexity, no_dims)`, then
`pack('{len(sample)}d', *sample)` for each sample (each sample contributes its
own values, however many there are), then `pack('i', randseed)` only when
`randseed != EMPTY_SEED`.  Floats always pack; `'i'` fields are range-checked. -/
def encodeRequest (samples : List (List Nat)) (sample_dim : Int)
    (theta perplexity : Nat) (no_dims : Int) (randseed : Int) :
    Option (List WireWord) := do
  let n ← pack_i32 (samples.length : Int)
  let d ← pack_i32 sample_dim
  let o ← pack_i32 no_dims
  let seedTail ←
    if randseed ≠ EMPTY_SEED then do
      let s ← pack_i32 randseed
      pure [s]
    else pure []
  return [n, d, WireWord.f64 theta, WireWord.f64 perplexity, o]
    ++ samples.flatMap (fun sample => sample.map WireWord.f64)
    ++ seedTail

/-- `_read_unpack('i', fh)`: reads one `int32` field; fails on a truncated or
misaligned stream. -/
def readI32 : List WireWord → Option (Int × List WireWord)
  | WireWord.i32 v :: rest => some (v, rest)
  | _ => none

/-- Reads one `float64` field; fails on a truncated or misaligned stream. -/
def readF64 : List WireWord → Option (Nat × List WireWord)
  | WireWord.f64 b :: rest => some (b, rest)
  | _ => none

/-- `_read_unpack('{k}d', fh)`: reads `k` consecutive `float64` fields. -/
def readF64s : Nat → List WireWord → Option (List Nat × List WireWord)
  | 0, ws => some ([], ws)
  | k + 1, ws => do
    let (x, ws1) ← readF64 ws
    let (xs, ws2) ← readF64s k ws1
    return (x :: xs, ws2)

/-- The vector block: `[_read_unpack('{}d'.format(result_dims), fh) for _ in
xrange(result_samples)]`.  `xrange` of a non-positive count is empty (the
caller passes `result_samples.toNat` iterations); a negative `result_dims`
makes the format string `'{-k}d'` invalid, which `struct` rejects — but only
when a record is actually read. -/
def readVecs : Nat → Int → List WireWord → Option (List (List Nat) × List WireWord)
  | 0, _, ws => some ([], ws)
  | k + 1, dims, ws =>
    if dims < 0 then none
    else do
      let (v, ws1) ← readF64s dims.toNat ws
      let (vs, ws2) ← readVecs k dims ws1
      return (v :: vs, ws2)

/-- The origin-index block: one `int32` per decoded vector, read after all the
vectors (`[(_read_unpack('i', fh), e) for e in results]`). -/
def readI32s : Nat → List WireWord → Option (List Int × List WireWord)
  | 0, ws => some ([], ws)
  | k + 1, ws => do
    let (x, ws1) ← readI32 ws
    let (xs, ws2) ← readI32s k ws1
    return (x :: xs, ws2)

/-- `results.sort()` on the list of `((originIndex,), vector)` pairs: a stable
sort by origin index ascending.  (Python compares the pairs lexicographically,
so two records with EQUAL origin indices would additionally be ordered by
comparing their float vectors; every property below involves distinct origin
indices, where the two sorts agree, and float-value order is not otherwise
representable on bit patterns.) -/
def sortByIdx (pairs : List (Int × List Nat)) : List (Int × List Nat) :=
  List.insertionSort (fun a b => a.1 ≤ b.1) pairs

/-- The result-file reads of `bh_tsne` (source lines 133–148): header
`int32 result_samples · int32 result_dims`, then `result_samples` vectors of
`result_dims` floats each, then `result_samples` origin indices, pairing the
i-th vector with the i-th index, sorting, and yielding the vectors.  The
trailing per-sample cost block is NOT read (the read is commented out in the
source); the second component is whatever portion of the file is left unread
when the decode completes. -/
def decodeResult (file : List WireWord) : Option (List (List Nat) × List WireWord) := do
  let (result_samples, f1) ← readI32 file
  let (result_dims, f2) ← readI32 f1
  let (results, f3) ← readVecs result_samples.toNat result_dims f2
  let (idxs, f4) ← readI32s result_samples.toNat f3
  let sorted := sortByIdx (idxs.zip results)
  return (sorted.map Prod.snd, f4)

/-- An engine behaviour: the black-box subprocess, as a function from the
request file it finds in its working directory to its exit code and the
result file it leaves behind. -/
def Engine : Type := List WireWord → Int × List WireWord

/-- Filesystem and process events of one invocation, in order. -/
inductive Event where
  | mkdir
  | writeData
  | launchEngine
  | readResult
  | rmtree
  deriving DecidableEq

/-- Failure modes of the wrapper as written: `samples[0]` on an empty batch
raises `IndexError`; `struct.pack 'i'` out of range raises `struct.error`; the
`assert not returncode` raises with the given message; `struct.unpack` on a
short or malformed result file raises. -/
inductive BhError where
  | indexError
  | structError
  | engineExecutionError (msg : String)
  | truncatedResult
  deriving DecidableEq

/-- The pieces concatenated into the assertion message on a non-zero exit
status: `'ERROR: ... please ' + ('enable verbose mode and ' if not verbose
else '') + 'refer to the bh_tsne output for further details'`. -/
def engineMsgParts (verbose : Bool) : List String :=
  ["ERROR: Call to bh_tsne exited with a non-zero return code exit status, please "]
    ++ (if !verbose then ["enable verbose mode and "] else [])
    ++ ["refer to the bh_tsne output for further details"]

/-- The assertion message on a non-zero exit status. -/
def engineErrMsg (verbose : Bool) : String :=
  String.join (engineMsgParts verbose)

/-- After the request file is written and the engine has run and terminated
(`bh_tsne_p.wait()`): the `assert not bh_tsne_p.returncode` check, then the
decode of the result file.  `res` is the engine's exit code and result file. -/
def enginePhase (verbose : Bool) (res : Int × List WireWord) :
    List Event × Except BhError (List (List Nat)) :=
  if res.1 ≠ 0 then
    ([Event.writeData, Event.launchEngine],
      Except.error (BhError.engineExecutionError (engineErrMsg verbose)))
  else
    match decodeResult res.2 with
    | none =>
      ([Event.writeData, Event.launchEngine, Event.readResult],
        Except.error BhError.truncatedResult)
    | some (out, _) =>
      ([Event.writeData, Event.launchEngine, Event.readResult], Except.ok out)

/-- Case split on the encoder's outcome: a pack failure aborts before the
engine is launched; otherwise the engine runs on the written request file. -/
def afterEncode (verbose : Bool) (engine : Engine) :
    Option (List WireWord) → List Event × Except BhError (List (List Nat))
  | none => ([], Except.error BhError.structError)
  | some req => enginePhase verbose (engine req)

/-- The body of the `with TmpDir()` block: write the request file, launch the
engine and wait, check its exit status, decode the result file.  Returns the
events performed inside the workspace and the outcome. -/
def bhInner (samples : List (List Nat)) (sample_dim : Int) (theta perplexity : Nat)
    (no_dims randseed : Int) (verbose : Bool) (engine : Engine) :
    List Event × Except BhError (List (List Nat)) :=
  afterEncode verbose engine (encodeRequest samples sample_dim theta perplexity no_dims randseed)

/-- The whole `bh_tsne` call.  Before the workspace exists it resolves
`sample_dim` (defaulting to `len(samples[0])`, which raises `IndexError` on an
empty batch); then the `with TmpDir()` block creates the directory, runs the
body, and removes the directory on both the normal and the exceptional exit. -/
def bh_tsne (samples : List (List Nat)) (no_dims : Int) (perplexity theta : Nat)
    (randseed : Int) (verbose : Bool) (sample_dim : Option Int) (engine : Engine) :
    List Event × Except BhError (List (List Nat)) :=
  let dimResolved : Option Int :=
    match sample_dim with
    | some d => some d
    | none =>
      match samples with
      | [] => none
      | s :: _ => some (s.length : Int)
  match dimResolved with
  | none => ([], Except.error BhError.indexError)
  | some d =>
    let inner := bhInner samples d theta perplexity no_dims randseed verbose engine
    (Event.mkdir :: inner.1 ++ [Event.rmtree], inner.2)

/-- A structurally well-formed result file as an engine writes it: header
`int32 count · int32 dims`, the vectors, the origin indices, the trailing
per-sample cost block. -/
def mkResultFile (dims : Int) (vecs : List (List Nat)) (idxs : List Int)
    (cost : List Nat) : List WireWord :=
  [WireWord.i32 (vecs.length : Int), WireWord.i32 dims]
    ++ vecs.flatMap (fun v => v.map WireWord.f64)
    ++ idxs.map WireWord.i32
    ++ cost.map WireWord.f64

/-- Header-plus-matrix portion of a request file: the layout every request
starts with, independent of the seed. -/
def reqHeaderBody (samples : List (List Nat)) (sample_dim : Int)
    (theta perplexity : Nat) (no_dims : Int) : List WireWord :=
  [WireWord.i32 (samples.length : Int), WireWord.i32 sample_dim,
    WireWord.f64 theta, WireWord.f64 perplexity, WireWord.i32 no_dims]
    ++ samples.flatMap (fun sample => sample.map WireWord.f64)

/-- Identity origin indices `0, 1, …, n-1`. -/
def identityIdxs (n : Nat) : List Int :=
  List.map (fun i : Nat => (i : Int)) (List.range n)

/-- A mock engine that exits cleanly and echoes the given samples back as the
embedding vectors, tagged with identity origin indices, followed by a zero
cost block. -/
def echoEngine (samples : List (List Nat)) (dims : Nat) : Engine :=
  fun _ => (0, mkResultFile (dims : Int) samples (identityIdxs samples.length)
    (List.replicate samples.length 0))

/-! ### Helper lemmas -/

instance : IsTotal (Int × List Nat) (fun a b => a.1 ≤ b.1) :=
  ⟨fun a b => le_total a.1 b.1⟩

instance : IsTrans (Int × List Nat) (fun a b => a.1 ≤ b.1) :=
  ⟨fun _ _ _ hab hbc => le_trans hab hbc⟩

theorem inInt32Range_iff (v : Int) :
    inInt32Range v = true ↔ int32Min ≤ v ∧ v < int32Max := by
  cases v with
  | ofNat n =>
    simp only [inInt32Range, Nat.blt_eq, int32Min, int32Max, Int.ofNat_eq_coe]
    omega
  | negSucc n =>
    simp only [inInt32Range, Nat.blt_eq, int32Min, int32Max, Int.negSucc_eq]
    omega

theorem readF64s_append (v : List Nat) (rest : List WireWord) :
    readF64s v.length (v.map WireWord.f64 ++ rest) = some (v, rest) := by
  induction v with
  | nil => rfl
  | cons x xs ih => simp [readF64s, readF64, ih]

theorem readVecs_append (vecs : List (List Nat)) (dims : Nat) (rest : List WireWord)
    (h : ∀ v ∈ vecs, v.length = dims) :
    readVecs vecs.length (dims : Int)
      (vecs.flatMap (fun v => v.map WireWord.f64) ++ rest) = some (vecs, rest) := by
  induction vecs with
  | nil => rfl
  | cons v vs ih =>
    have hv : v.length = dims := h v (List.mem_cons_self v vs)
    have hread : readF64s dims
        (v.map WireWord.f64 ++ (vs.flatMap (fun w => w.map WireWord.f64) ++ rest)) =
        some (v, vs.flatMap (fun w => w.map WireWord.f64) ++ rest) := by
      rw [← hv]
      exact readF64s_append v _
    have hnot : ¬ ((dims : Int) < 0) := by omega
    simp [readVecs, List.flatMap_cons, List.append_assoc, hnot, hread,
      ih (fun w hw => h w (List.mem_cons_of_mem v hw))]

theorem readI32s_append (idxs : List Int) (rest : List WireWord) :
    readI32s idxs.length (idxs.map WireWord.i32 ++ rest) = some (idxs, rest) := by
  induction idxs with
  | nil => rfl
  | cons x xs ih => simp [readI32s, readI32, ih]

theorem decodeResult_mkResultFile (dims : Nat) (vecs : List (List Nat)) (idxs : List Int)
    (cost : List Nat) (hlen : idxs.length = vecs.length)
    (hdim : ∀ v ∈ vecs, v.length = dims) :
    decodeResult (mkResultFile (dims : Int) vecs idxs cost) =
      some ((sortByIdx (idxs.zip vecs)).map Prod.snd, cost.map WireWord.f64) := by
  have hvecs := readVecs_append vecs dims (idxs.map WireWord.i32 ++ cost.map WireWord.f64) hdim
  have hidxs := readI32s_append idxs (cost.map WireWord.f64)
  rw [hlen] at hidxs
  simp only [decodeResult, mkResultFile, List.append_assoc, List.cons_append, List.nil_append,
    readI32, Option.bind_eq_bind, Option.some_bind, Option.pure_def, Int.toNat_natCast,
    hvecs, hidxs]

theorem sortByIdx_perm (l : List (Int × List Nat)) : (sortByIdx l).Perm l :=
  List.perm_insertionSort _ l

theorem sortByIdx_sorted (l : List (Int × List Nat)) :
    List.Sorted (fun a b => a.1 ≤ b.1) (sortByIdx l) :=
  List.sorted_insertionSort _ l

theorem identityIdxs_sorted (n : Nat) : List.Sorted (· ≤ ·) (identityIdxs n) := by
  unfold identityIdxs
  apply List.Pairwise.map
  · intro a b hab
    have hab' : a < b := hab
    change (a : Int) ≤ (b : Int)
    omega
  · exact List.pairwise_lt_range n

theorem sortByIdx_map_fst (n : Nat) (pairs : List (Int × List Nat))
    (hperm : (pairs.map Prod.fst).Perm (identityIdxs n)) :
    (sortByIdx pairs).map Prod.fst = identityIdxs n := by
  have h1 : ((sortByIdx pairs).map Prod.fst).Perm (identityIdxs n) :=
    ((sortByIdx_perm pairs).map Prod.fst).trans hperm
  have h2 : List.Sorted (· ≤ ·) ((sortByIdx pairs).map Prod.fst) := by
    rw [List.Sorted, List.pairwise_map]
    exact sortByIdx_sorted pairs
  exact List.eq_of_perm_of_sorted h1 h2 (identityIdxs_sorted n)

theorem flatBlock_length (samples : List (List Nat)) (D : Nat)
    (h : ∀ s ∈ samples, s.length = D) :
    (samples.flatMap (fun s => s.map WireWord.f64)).length = samples.length * D := by
  induction samples with
  | nil => simp
  | cons s ss ih =>
    have := ih fun w hw => h w (List.mem_cons_of_mem s hw)
    simp only [List.flatMap_cons, List.length_append, List.length_map,
      h s (List.mem_cons_self s ss), this, List.length_cons]
    ring

theorem encodeRequest_eq (samples : List (List Nat)) (d : Int) (theta perplexity : Nat)
    (no_dims randseed : Int)
    (hn : (samples.length : Int) < int32Max)
    (hd : int32Min ≤ d ∧ d < int32Max)
    (ho : int32Min ≤ no_dims ∧ no_dims < int32Max)
    (hr : randseed = EMPTY_SEED ∨ (int32Min ≤ randseed ∧ randseed < int32Max)) :
    encodeRequest samples d theta perplexity no_dims randseed =
      some (reqHeaderBody samples d theta perplexity no_dims ++
        if randseed ≠ EMPTY_SEED then [WireWord.i32 randseed] else []) := by
  have h1 : inInt32Range (samples.length : Int) = true :=
    (inInt32Range_iff _).mpr ⟨by unfold int32Min; omega, hn⟩
  have h2 : inInt32Range d = true := (inInt32Range_iff _).mpr hd
  have h3 : inInt32Range no_dims = true := (inInt32Range_iff _).mpr ho
  by_cases hre : randseed = EMPTY_SEED
  · simp [encodeRequest, pack_i32, reqHeaderBody, h1, h2, h3, hre]
  · have h4 : inInt32Range randseed = true :=
      (inInt32Range_iff _).mpr (hr.resolve_left hre)
    simp [encodeRequest, pack_i32, reqHeaderBody, h1, h2, h3, h4, hre]

theorem bhInner_encode_ok (samples : List (List Nat)) (d : Int)
    (theta perplexity : Nat) (no_dims randseed : Int) (verbose : Bool)
    (engine : Engine) (req : List WireWord)
    (henc : encodeRequest samples d theta perplexity no_dims randseed = some req) :
    bhInner samples d theta perplexity no_dims randseed verbose engine =
      enginePhase verbose (engine req) := by
  unfold bhInner
  rw [henc]
  rfl

theorem bh_tsne_cons (s : List Nat) (rest : List (List Nat)) (no_dims : Int)
    (perplexity theta : Nat) (randseed : Int) (verbose : Bool) (engine : Engine) :
    bh_tsne (s :: rest) no_dims perplexity theta randseed verbose none engine =
      (Event.mkdir ::
          (bhInner (s :: rest) (s.length : Int) theta perplexity no_dims randseed
            verbose engine).1 ++ [Event.rmtree],
        (bhInner (s :: rest) (s.length : Int) theta perplexity no_dims randseed
          verbose engine).2) := rfl

theorem bh_tsne_some_dim (samples : List (List Nat)) (d no_dims : Int)
    (perplexity theta : Nat) (randseed : Int) (verbose : Bool) (engine : Engine) :
    bh_tsne samples no_dims perplexity theta randseed verbose (some d) engine =
      (Event.mkdir ::
          (bhInner samples d theta perplexity no_dims randseed verbose engine).1
        ++ [Event.rmtree],
        (bhInner samples d theta perplexity no_dims randseed verbose engine).2) := rfl

theorem launchEngine_mem_bhInner (samples : List (List Nat)) (d : Int)
    (theta perplexity : Nat) (no_dims randseed : Int) (verbose : Bool)
    (engine : Engine) (req : List WireWord)
    (henc : encodeRequest samples d theta perplexity no_dims randseed = some req) :
    Event.launchEngine ∈
      (bhInner samples d theta perplexity no_dims randseed verbose engine).1 := by
  rw [bhInner_encode_ok samples d theta perplexity no_dims randseed verbose engine req henc]
  unfold enginePhase
  by_cases hrc : (engine req).1 ≠ 0
  · rw [if_pos hrc]
    simp
  · rw [if_neg hrc]
    cases hdec : decodeResult (engine req).2 with
    | none => simp [hdec]
    | some pr => rcases pr with ⟨out, leftover⟩; simp [hdec]

theorem bh_tsne_ok (s : List Nat) (rest : List (List Nat)) (dims : Nat)
    (vecs : List (List Nat)) (idxs : List Int) (cost : List Nat)
    (theta perplexity : Nat) (no_dims randseed : Int) (verbose : Bool)
    (hn : (((s :: rest).length : Int)) < int32Max)
    (hd : ((s.length : Int)) < int32Max)
    (ho : int32Min ≤ no_dims ∧ no_dims < int32Max)
    (hr : randseed = EMPTY_SEED ∨ (int32Min ≤ randseed ∧ randseed < int32Max))
    (hvlen : idxs.length = vecs.length)
    (hvdim : ∀ v ∈ vecs, v.length = dims) :
    bh_tsne (s :: rest) no_dims perplexity theta randseed verbose none
        (fun _ => (0, mkResultFile (dims : Int) vecs idxs cost)) =
      ([Event.mkdir, Event.writeData, Event.launchEngine, Event.readResult, Event.rmtree],
        Except.ok ((sortByIdx (idxs.zip vecs)).map Prod.snd)) := by
  have henc := encodeRequest_eq (s :: rest) (s.length : Int) theta perplexity no_dims randseed
    hn ⟨by unfold int32Min; omega, hd⟩ ho hr
  have hdec := decodeResult_mkResultFile dims vecs idxs cost hvlen hvdim
  rw [bh_tsne_cons, bhInner_encode_ok (s :: rest) (s.length : Int) theta perplexity
    no_dims randseed verbose _ _ henc]
  unfold enginePhase
  simp [hdec]

/-! ### Claim theorems -/

/-- C1: for a batch of `n` samples and a result file whose records carry the
vectors in arbitrary order tagged with distinct origin indices `0..n-1`, the
decode-and-reorder stage yields the vectors so that the i-th yielded vector is
exactly the one whose origin index equals `i`. -/
theorem spec_C1_reorder_restores_input_order (n : Nat) (dims : Nat)
    (vecs : List (List Nat)) (idxs : List Int) (cost : List Nat)
    (hlen : idxs.length = vecs.length)
    (hdim : ∀ v ∈ vecs, v.length = dims)
    (hperm : idxs.Perm (identityIdxs n)) :
    ∃ out, decodeResult (mkResultFile (dims : Int) vecs idxs cost) =
        some (out, cost.map WireWord.f64) ∧
      ∀ i < n, ∃ v, out.get? i = some v ∧ ((i : Int), v) ∈ idxs.zip vecs := by
  refine ⟨(sortByIdx (idxs.zip vecs)).map Prod.snd,
    decodeResult_mkResultFile dims vecs idxs cost hlen hdim, ?_⟩
  intro i hi
  have hfst : ((idxs.zip vecs).map Prod.fst).Perm (identityIdxs n) := by
    rw [List.map_fst_zip idxs vecs (le_of_eq hlen)]
    exact hperm
  have hsorted := sortByIdx_map_fst n (idxs.zip vecs) hfst
  have hidx : (identityIdxs n).get? i = some ((i : Int)) := by
    unfold identityIdxs
    rw [List.get?_map, List.get?_range hi]
    rfl
  have hget : ((sortByIdx (idxs.zip vecs)).map Prod.fst).get? i = some ((i : Int)) := by
    rw [hsorted]; exact hidx
  rw [List.get?_map] at hget
  cases hp : (sortByIdx (idxs.zip vecs)).get? i with
  | none => rw [hp] at hget; cases hget
  | some p =>
    rw [hp] at hget
    have hp1 : p.1 = (i : Int) := by
      simpa using hget
    refine ⟨p.2, ?_, ?_⟩
    · rw [List.get?_map, hp]; rfl
    · have hmem : p ∈ sortByIdx (idxs.zip vecs) := List.get?_mem hp
      have hmem2 : p ∈ idxs.zip vecs := (sortByIdx_perm (idxs.zip vecs)).mem_iff.mp hmem
      have : ((i : Int), p.2) = p := by
        rw [← hp1]
      rw [this]
      exact hmem2

/-- C1 witness: the spec's concrete scenario — two samples, the engine emits
the vector `[a,b] = [10,11]` tagged with origin 1 first and `[c,d] = [12,13]`
tagged with origin 0 second, and each output position `i` receives the vector
tagged `i` (hence output `[[c,d],[a,b]]`). -/
theorem spec_C1_witness :
    ∃ out, decodeResult (mkResultFile ((2 : Nat) : Int) [[10, 11], [12, 13]] [1, 0] [7, 7]) =
        some (out, ([7, 7] : List Nat).map WireWord.f64) ∧
      ∀ i < 2, ∃ v, out.get? i = some v ∧
        ((i : Int), v) ∈ ([1, 0] : List Int).zip [[10, 11], [12, 13]] :=
  spec_C1_reorder_restores_input_order 2 2 [[10, 11], [12, 13]] [1, 0] [7, 7]
    (by decide) (by decide) (by decide)

/-- C2: for a batch whose samples all have length `D` (and int32-representable
header fields), the encoder produces exactly `int32 N · int32 D · float64
theta · float64 perplexity · int32 output_dims`, then the `N` samples' values
contiguously in row order (`N * D` float64 values in total), then one trailing
`int32` seed field if and only if a seed was supplied (`randseed ≠ EMPTY_SEED`). -/
theorem spec_C2_request_layout (samples : List (List Nat)) (D : Nat)
    (theta perplexity : Nat) (no_dims randseed : Int)
    (huniform : ∀ t ∈ samples, t.length = D)
    (hn : (samples.length : Int) < int32Max)
    (hd : (D : Int) < int32Max)
    (ho : int32Min ≤ no_dims ∧ no_dims < int32Max)
    (hr : randseed = EMPTY_SEED ∨ (int32Min ≤ randseed ∧ randseed < int32Max)) :
    encodeRequest samples (D : Int) theta perplexity no_dims randseed =
      some ([WireWord.i32 (samples.length : Int), WireWord.i32 (D : Int),
          WireWord.f64 theta, WireWord.f64 perplexity, WireWord.i32 no_dims]
        ++ (samples.map (fun t => t.map WireWord.f64)).flatten
        ++ (if randseed ≠ EMPTY_SEED then [WireWord.i32 randseed] else [])) ∧
    ((samples.map (fun t => t.map WireWord.f64)).flatten).length = samples.length * D := by
  constructor
  · have h := encodeRequest_eq samples (D : Int) theta perplexity no_dims randseed hn
      ⟨by unfold int32Min; omega, hd⟩ ho hr
    rw [h, reqHeaderBody, List.flatMap_def]
  · rw [← List.flatMap_def]
    exact flatBlock_length samples D huniform

/-- C2 witness: the layout at the concrete batch `[[1,2],[3,4]]` (so `N = 2`,
`D = 2`) with a supplied seed. -/
theorem spec_C2_witness :
    encodeRequest [[1, 2], [3, 4]] ((2 : Nat) : Int) 30 5 2 99 =
      some ([WireWord.i32 (([[1, 2], [3, 4]] : List (List Nat)).length : Int),
          WireWord.i32 ((2 : Nat) : Int), WireWord.f64 30, WireWord.f64 5, WireWord.i32 2]
        ++ (([[1, 2], [3, 4]] : List (List Nat)).map (fun t => t.map WireWord.f64)).flatten
        ++ (if (99 : Int) ≠ EMPTY_SEED then [WireWord.i32 99] else [])) ∧
    ((([[1, 2], [3, 4]] : List (List Nat)).map (fun t => t.map WireWord.f64)).flatten).length =
      ([[1, 2], [3, 4]] : List (List Nat)).length * 2 :=
  spec_C2_request_layout [[1, 2], [3, 4]] 2 30 5 2 99 (by decide) (by decide) (by decide)
    (by decide) (Or.inr (by decide))

/-- C10: the sentinel seed `EMPTY_SEED = -1` is indistinguishable from
supplying no seed: with `randseed = EMPTY_SEED` the request file is exactly
the header plus the sample matrix with no trailing seed field, so the value
`-1` is never transmitted; any other (int32-representable) seed value is
appended as a trailing `int32` field. -/
theorem spec_C10_seed_sentinel (samples : List (List Nat)) (d : Int)
    (theta perplexity : Nat) (no_dims : Int)
    (hn : (samples.length : Int) < int32Max)
    (hd : int32Min ≤ d ∧ d < int32Max)
    (ho : int32Min ≤ no_dims ∧ no_dims < int32Max) :
    encodeRequest samples d theta perplexity no_dims EMPTY_SEED =
      some (reqHeaderBody samples d theta perplexity no_dims) ∧
    ∀ r : Int, r ≠ EMPTY_SEED → int32Min ≤ r → r < int32Max →
      encodeRequest samples d theta perplexity no_dims r =
        some (reqHeaderBody samples d theta perplexity no_dims ++ [WireWord.i32 r]) := by
  constructor
  · have h := encodeRequest_eq samples d theta perplexity no_dims EMPTY_SEED hn hd ho (Or.inl rfl)
    simpa using h
  · intro r hr1 hr2 hr3
    have h := encodeRequest_eq samples d theta perplexity no_dims r hn hd ho (Or.inr ⟨hr2, hr3⟩)
    simpa [hr1] using h

/-- C10 witness: at the batch `[[1]]`, the sentinel writes no trailing field
and the seed `7` is appended. -/
theorem spec_C10_witness :
    (encodeRequest [[1]] 1 30 5 2 EMPTY_SEED = some (reqHeaderBody [[1]] 1 30 5 2) ∧
      ∀ r : Int, r ≠ EMPTY_SEED → int32Min ≤ r → r < int32Max →
        encodeRequest [[1]] 1 30 5 2 r = some (reqHeaderBody [[1]] 1 30 5 2 ++ [WireWord.i32 r])) :=
  spec_C10_seed_sentinel [[1]] 1 30 5 2 (by decide) (by decide) (by decide)

/-- C3 counterexample: the batch `[[5], [6,7]]` contains two samples of
differing length, yet the call is not rejected: the request file is written
(with each sample's own values), the engine subprocess is launched, and the
call completes normally — refuting pre-I/O failure with `MalformedInputError`. -/
theorem spec_C3_counterexample :
    bh_tsne [[5], [6, 7]] 2 30 5 (-1) false none
        (fun _ => (0, mkResultFile 1 [[20], [21]] [0, 1] [0, 0])) =
      ([Event.mkdir, Event.writeData, Event.launchEngine, Event.readResult, Event.rmtree],
        Except.ok [[20], [21]]) := rfl

/-- C3 corrected: the wrapper performs no input validation.  An empty batch
(with the default `sample_dim`) fails before any filesystem or process event
with the index error raised by `samples[0]` — there is no
`MalformedInputError` — while a non-empty batch whose samples have differing
lengths is not rejected at all: the engine subprocess is launched regardless
of whether the per-sample lengths agree. -/
theorem spec_C3_amended (samples : List (List Nat)) (no_dims : Int)
    (perplexity theta : Nat) (randseed : Int) (verbose : Bool) (engine : Engine)
    (hn : (samples.length : Int) < int32Max)
    (hd : (((samples.headD []).length : Int)) < int32Max)
    (ho : int32Min ≤ no_dims ∧ no_dims < int32Max)
    (hr : randseed = EMPTY_SEED ∨ (int32Min ≤ randseed ∧ randseed < int32Max)) :
    (samples = [] →
      bh_tsne samples no_dims perplexity theta randseed verbose none engine =
        ([], Except.error BhError.indexError)) ∧
    (samples ≠ [] →
      Event.launchEngine ∈
        (bh_tsne samples no_dims perplexity theta randseed verbose none engine).1) := by
  constructor
  · rintro rfl
    rfl
  · intro hne
    obtain ⟨s, rest, rfl⟩ := List.exists_cons_of_ne_nil hne
    have hd' : ((s.length : Int)) < int32Max := by simpa using hd
    have henc := encodeRequest_eq (s :: rest) (s.length : Int) theta perplexity no_dims
      randseed hn ⟨by unfold int32Min; omega, hd'⟩ ho hr
    have hmem := launchEngine_mem_bhInner (s :: rest) (s.length : Int) theta perplexity
      no_dims randseed verbose engine _ henc
    rw [bh_tsne_cons]
    exact List.mem_cons_of_mem _ (List.mem_append_left _ hmem)

/-- C3 witness: a concrete ragged batch on which the amended statement is
instantiated — the engine is launched. -/
theorem spec_C3_witness :
    Event.launchEngine ∈
      (bh_tsne [[5], [6, 7]] 2 30 5 (-1) false none
        (fun _ => ((1 : Int), ([] : List WireWord)))).1 :=
  (spec_C3_amended [[5], [6, 7]] 2 30 5 (-1) false (fun _ => ((1 : Int), ([] : List WireWord)))
    (by decide) (by decide) (by decide) (Or.inl rfl)).2 (by decide)

/-- C4 counterexample: the caller supplies `N = 2` samples but the engine's
result header declares `resultCount = 1`; decoding does not fail — there is
no `resultCount == N` check and no `ProtocolMismatchError` — and the call
returns the single vector. -/
theorem spec_C4_counterexample :
    bh_tsne [[1, 2], [3, 4]] 2 30 5 (-1) false none
        (fun _ => (0, mkResultFile 2 [[7, 8]] [0] [0])) =
      ([Event.mkdir, Event.writeData, Event.launchEngine, Event.readResult, Event.rmtree],
        Except.ok [[7, 8]]) := rfl

/-- C4 corrected: the decoder trusts the result header unconditionally — it
reads exactly `resultCount` records as declared by the file and never compares
`resultCount` with the caller's sample count, so a mismatched header yields a
normal result of `resultCount` vectors instead of any error. -/
theorem spec_C4_amended (s : List Nat) (rest : List (List Nat)) (dims : Nat)
    (vecs : List (List Nat)) (idxs : List Int) (cost : List Nat)
    (theta perplexity : Nat) (no_dims randseed : Int) (verbose : Bool)
    (hn : (((s :: rest).length : Int)) < int32Max)
    (hd : ((s.length : Int)) < int32Max)
    (ho : int32Min ≤ no_dims ∧ no_dims < int32Max)
    (hr : randseed = EMPTY_SEED ∨ (int32Min ≤ randseed ∧ randseed < int32Max))
    (hvlen : idxs.length = vecs.length)
    (hvdim : ∀ v ∈ vecs, v.length = dims)
    (hmismatch : vecs.length ≠ (s :: rest).length) :
    ∃ out, (bh_tsne (s :: rest) no_dims perplexity theta randseed verbose none
        (fun _ => (0, mkResultFile (dims : Int) vecs idxs cost))).2 = Except.ok out ∧
      out.length = vecs.length := by
  refine ⟨(sortByIdx (idxs.zip vecs)).map Prod.snd, ?_, ?_⟩
  · rw [bh_tsne_ok s rest dims vecs idxs cost theta perplexity no_dims randseed verbose
      hn hd ho hr hvlen hvdim]
  · rw [List.length_map, sortByIdx, List.length_insertionSort, List.length_zip, hvlen,
      min_self]

/-- C4 witness: two input samples, a result header declaring one record; the
call succeeds with one output vector. -/
theorem spec_C4_witness :
    ∃ out, (bh_tsne [[1, 2], [3, 4]] 2 30 5 (-1) false none
        (fun _ => (0, mkResultFile ((2 : Nat) : Int) [[7, 8]] [0] [0]))).2 = Except.ok out ∧
      out.length = ([[7, 8]] : List (List Nat)).length :=
  spec_C4_amended [1, 2] [[3, 4]] 2 [[7, 8]] [0] [0] 5 30 2 (-1) false
    (by decide) (by decide) (by decide) (Or.inl rfl) (by decide) (by decide) (by decide)

/-- C5 counterexample: a result file for two samples carrying the two trailing
cost values `9, 9`; decoding completes with those two float64 fields still
unread — the decoder does not consume the cost block (the read is commented
out in the source). -/
theorem spec_C5_counterexample :
    decodeResult (mkResultFile 1 [[4], [5]] [0, 1] [9, 9]) =
      some ([[4], [5]], [WireWord.f64 9, WireWord.f64 9]) ∧
    ([WireWord.f64 9, WireWord.f64 9] : List WireWord) ≠ [] := ⟨rfl, by decide⟩

/-- C5 corrected: after reading the header, the vectors and the origin-index
block, the decoder stops: the `N` trailing float64 cost values are left
unread in the file (they are discarded only because the file is closed), not
read-and-discarded. -/
theorem spec_C5_amended (dims : Nat) (vecs : List (List Nat)) (idxs : List Int)
    (cost : List Nat)
    (hvlen : idxs.length = vecs.length)
    (hvdim : ∀ v ∈ vecs, v.length = dims) :
    ∃ out, decodeResult (mkResultFile (dims : Int) vecs idxs cost) =
      some (out, cost.map WireWord.f64) :=
  ⟨(sortByIdx (idxs.zip vecs)).map Prod.snd,
    decodeResult_mkResultFile dims vecs idxs cost hvlen hvdim⟩

/-- C5 witness: concrete instantiation of the amended statement. -/
theorem spec_C5_witness :
    ∃ out, decodeResult (mkResultFile ((1 : Nat) : Int) [[4], [5]] [0, 1] [9, 9]) =
      some (out, ([9, 9] : List Nat).map WireWord.f64) :=
  spec_C5_amended 1 [[4], [5]] [0, 1] [9, 9] (by decide) (by decide)

/-- C6: given a successfully encoded request, the call fails with the
engine-execution error if and only if the subprocess exit status is non-zero;
the error message is built for the current verbosity, and the direction to
enable verbose mode is one of its pieces exactly when verbose was not
enabled. -/
theorem spec_C6_engine_exit_status (samples : List (List Nat)) (d : Int)
    (theta perplexity : Nat) (no_dims randseed : Int) (verbose : Bool)
    (engine : Engine) (req : List WireWord)
    (henc : encodeRequest samples d theta perplexity no_dims randseed = some req) :
    ((engine req).1 ≠ 0 →
      (bh_tsne samples no_dims perplexity theta randseed verbose (some d) engine).2 =
        Except.error (BhError.engineExecutionError (engineErrMsg verbose))) ∧
    ((engine req).1 = 0 →
      ∀ msg, (bh_tsne samples no_dims perplexity theta randseed verbose (some d) engine).2 ≠
        Except.error (BhError.engineExecutionError msg)) ∧
    "enable verbose mode and " ∈ engineMsgParts false ∧
    "enable verbose mode and " ∉ engineMsgParts true := by
  have hinner := bhInner_encode_ok samples d theta perplexity no_dims randseed verbose
    engine req henc
  refine ⟨?_, ?_, by simp [engineMsgParts], by simp [engineMsgParts]⟩
  · intro hrc
    rw [bh_tsne_some_dim, hinner]
    unfold enginePhase
    rw [if_pos hrc]
  · intro hrc msg
    rw [bh_tsne_some_dim, hinner]
    unfold enginePhase
    rw [if_neg (by simp [hrc])]
    cases hdec : decodeResult (engine req).2 with
    | none => simp
    | some pr => rcases pr with ⟨out, leftover⟩; simp

/-- C6 witness: a mock engine exiting with status 1 while verbose is off; the
call fails with the message that directs the caller to enable verbose mode. -/
theorem spec_C6_witness :
    (bh_tsne [[1, 2]] 2 5 30 (-1) false (some 2)
        (fun _ => ((1 : Int), ([] : List WireWord)))).2 =
      Except.error (BhError.engineExecutionError (engineErrMsg false)) ∧
    "enable verbose mode and " ∈ engineMsgParts false ∧
    "enable verbose mode and " ∉ engineMsgParts true := by
  have h := spec_C6_engine_exit_status [[1, 2]] 2 30 5 2 (-1) false
    (fun _ => ((1 : Int), ([] : List WireWord)))
    [WireWord.i32 1, WireWord.i32 2, WireWord.f64 30, WireWord.f64 5, WireWord.i32 2,
      WireWord.f64 1, WireWord.f64 2] (by rfl)
  exact ⟨h.1 (by decide), h.2.2.1, h.2.2.2⟩

/-- C7: on every exit path — normal completion, encoding failure, engine
failure, or decoding failure — the transient workspace directory is removed:
in every possible trace, directory creations and removals balance, so no
workspace directory remains afterwards. -/
theorem spec_C7_workspace_always_deleted (samples : List (List Nat)) (no_dims : Int)
    (perplexity theta : Nat) (randseed : Int) (verbose : Bool) (sample_dim : Option Int)
    (engine : Engine) :
    ((bh_tsne samples no_dims perplexity theta randseed verbose sample_dim engine).1.count
        Event.mkdir) =
      ((bh_tsne samples no_dims perplexity theta randseed verbose sample_dim engine).1.count
        Event.rmtree) := by
  have hinner : ∀ d : Int,
      ((bhInner samples d theta perplexity no_dims randseed verbose engine).1.count
          Event.mkdir = 0) ∧
      ((bhInner samples d theta perplexity no_dims randseed verbose engine).1.count
          Event.rmtree = 0) := by
    intro d
    unfold bhInner
    cases henc : encodeRequest samples d theta perplexity no_dims randseed with
    | none => exact ⟨rfl, rfl⟩
    | some req =>
      show ((enginePhase verbose (engine req)).1.count Event.mkdir = 0) ∧
        ((enginePhase verbose (engine req)).1.count Event.rmtree = 0)
      unfold enginePhase
      by_cases hrc : (engine req).1 ≠ 0
      · rw [if_pos hrc]
        exact ⟨rfl, rfl⟩
      · rw [if_neg hrc]
        cases hdec : decodeResult (engine req).2 with
        | none => exact ⟨rfl, rfl⟩
        | some pr => rcases pr with ⟨out, leftover⟩; exact ⟨rfl, rfl⟩
  cases sample_dim with
  | some d =>
    rw [bh_tsne_some_dim]
    simp [List.count_cons, List.count_append, (hinner d).1, (hinner d).2]
  | none =>
    cases samples with
    | nil => rfl
    | cons s rest =>
      rw [bh_tsne_cons]
      simp [List.count_cons, List.count_append, (hinner ((s.length : Int))).1,
        (hinner ((s.length : Int))).2]

/-- C8: encoding a valid uniform batch and decoding the result of a mock
engine that echoes the samples back (result dimensionality equal to the input
dimensionality) with identity origin indices reproduces the original sample
values bit-for-bit, in the original order. -/
theorem spec_C8_roundtrip (s : List Nat) (rest : List (List Nat)) (D : Nat)
    (theta perplexity : Nat) (no_dims randseed : Int) (verbose : Bool)
    (huniform : ∀ t ∈ s :: rest, t.length = D)
    (hn : (((s :: rest).length : Int)) < int32Max)
    (hD : ((D : Int)) < int32Max)
    (ho : int32Min ≤ no_dims ∧ no_dims < int32Max)
    (hr : randseed = EMPTY_SEED ∨ (int32Min ≤ randseed ∧ randseed < int32Max)) :
    (bh_tsne (s :: rest) no_dims perplexity theta randseed verbose none
        (echoEngine (s :: rest) D)).2 = Except.ok (s :: rest) := by
  have hs : s.length = D := huniform s (List.mem_cons_self s rest)
  have hlen : (identityIdxs (s :: rest).length).length = (s :: rest).length := by
    simp [identityIdxs]
  have hrun := bh_tsne_ok s rest D (s :: rest) (identityIdxs (s :: rest).length)
    (List.replicate (s :: rest).length 0) theta perplexity no_dims randseed verbose
    hn (by rw [hs]; exact hD) ho hr hlen huniform
  have heng : echoEngine (s :: rest) D = fun _ => (0, mkResultFile (D : Int) (s :: rest)
      (identityIdxs (s :: rest).length) (List.replicate (s :: rest).length 0)) := rfl
  rw [heng, hrun]
  have hfst : List.map Prod.fst ((identityIdxs (s :: rest).length).zip (s :: rest)) =
      identityIdxs (s :: rest).length :=
    List.map_fst_zip _ _ (le_of_eq hlen)
  have hsorted : List.Pairwise (fun a b : Int × List Nat => a.1 ≤ b.1)
      ((identityIdxs (s :: rest).length).zip (s :: rest)) := by
    have h1 : List.Pairwise (fun a b : Int => a ≤ b)
        (List.map Prod.fst ((identityIdxs (s :: rest).length).zip (s :: rest))) := by
      rw [hfst]
      exact identityIdxs_sorted (s :: rest).length
    exact List.pairwise_map.mp h1
  have hsort : sortByIdx ((identityIdxs (s :: rest).length).zip (s :: rest)) =
      (identityIdxs (s :: rest).length).zip (s :: rest) :=
    List.Sorted.insertionSort_eq hsorted
  rw [hsort, List.map_snd_zip _ _ (le_of_eq hlen.symm)]

/-- C8 witness: the batch `[[1,2],[3,4]]` echoed back by the mock engine comes
out identical. -/
theorem spec_C8_witness :
    (bh_tsne [[1, 2], [3, 4]] 2 30 5 (-1) false none
        (echoEngine [[1, 2], [3, 4]] 2)).2 = Except.ok [[1, 2], [3, 4]] :=
  spec_C8_roundtrip [1, 2] [[3, 4]] 2 5 30 2 (-1) false (by decide) (by decide)
    (by decide) (by decide) (Or.inl rfl)

/-- C9: for a valid non-empty batch of `N` samples and an engine that writes a
well-formed result file (`resultCount = N`, every vector of the declared
dimensionality, one origin index per vector), the call succeeds and the output
contains exactly `N` embedding vectors. -/
theorem spec_C9_output_length (s : List Nat) (rest : List (List Nat)) (D dims : Nat)
    (vecs : List (List Nat)) (idxs : List Int) (cost : List Nat)
    (theta perplexity : Nat) (no_dims randseed : Int) (verbose : Bool)
    (huniform : ∀ t ∈ s :: rest, t.length = D)
    (hn : (((s :: rest).length : Int)) < int32Max)
    (hD : ((D : Int)) < int32Max)
    (ho : int32Min ≤ no_dims ∧ no_dims < int32Max)
    (hr : randseed = EMPTY_SEED ∨ (int32Min ≤ randseed ∧ randseed < int32Max))
    (hvcount : vecs.length = (s :: rest).length)
    (hvlen : idxs.length = vecs.length)
    (hvdim : ∀ v ∈ vecs, v.length = dims) :
    ∃ out, (bh_tsne (s :: rest) no_dims perplexity theta randseed verbose none
        (fun _ => (0, mkResultFile (dims : Int) vecs idxs cost))).2 = Except.ok out ∧
      out.length = (s :: rest).length := by
  have hs : s.length = D := huniform s (List.mem_cons_self s rest)
  refine ⟨(sortByIdx (idxs.zip vecs)).map Prod.snd, ?_, ?_⟩
  · rw [bh_tsne_ok s rest dims vecs idxs cost theta perplexity no_dims randseed verbose
      hn (by rw [hs]; exact hD) ho hr hvlen hvdim]
  · rw [List.length_map, sortByIdx, List.length_insertionSort, List.length_zip, hvlen,
      min_self, hvcount]

/-- C9 witness: two samples in, a well-formed two-record result file, two
vectors out. -/
theorem spec_C9_witness :
    ∃ out, (bh_tsne [[1, 2], [3, 4]] 2 30 5 (-1) false none
        (fun _ => (0, mkResultFile ((2 : Nat) : Int) [[9, 9], [8, 8]] [0, 1] [0, 0]))).2 =
        Except.ok out ∧
      out.length = ([[1, 2], [3, 4]] : List (List Nat)).length :=
  spec_C9_output_length [1, 2] [[3, 4]] 2 2 [[9, 9], [8, 8]] [0, 1] [0, 0] 5 30 2 (-1) false
    (by decide) (by decide) (by decide) (by decide) (Or.inl rfl) (by decide) (by decide)
    (by decide)

end BhTsne
